import Mathlib

/-!
Verification of the NNLS active-set solver specification of this repository,
together with the variadic min/max helpers of
unsupported/Eigen/src/MetaHeuristic/Global/HeuMaths.hpp.

The NNLS solver implementation itself is not among the provided source files
(only its test driver unsupported/test/NNLS.cpp is), so the solver is modelled
from the specification over exact rational arithmetic: matrices are
Matrix (Fin m) (Fin n) Rat, the least-squares sub-primitive is an exact
normal-equation solve by Cramer rule, and the active/passive partition is a
Boolean mask.  All definitions are executable so that concrete problem
instances can be evaluated inside proofs.
-/

namespace EigenNNLS

open Matrix

/-- Completion status reported by the solver, mirroring the three values of
the status enum used by the spec: Success, NoConvergence, InvalidInput. -/
inductive ComputationInfo where
  | Success
  | NoConvergence
  | InvalidInput
deriving DecidableEq, Repr

/-- Executable determinant by Laplace expansion along the first column.
Used so that concrete instances reduce quickly in the kernel. -/
def detExp : (k : Nat) → Matrix (Fin k) (Fin k) ℚ → ℚ
  | 0, _ => 1
  | k + 1, M =>
      ∑ i : Fin (k + 1), (-1) ^ (i : ℕ) * M i 0 * detExp k (M.submatrix i.succAbove Fin.succ)

/-- Executable Cramer-rule vector: component i is the determinant of M with
column i replaced by c. -/
def cramerExp (k : Nat) (M : Matrix (Fin k) (Fin k) ℚ) (c : Fin k → ℚ) : Fin k → ℚ :=
  fun i => detExp k (M.updateColumn i c)

variable {m n : Nat}

/-- Dual (gradient) vector of the squared-residual objective, as in section 3
of the spec: y = A-transpose times (A x - b). -/
def dualVec (A : Matrix (Fin m) (Fin n) ℚ) (b : Fin m → ℚ) (x : Fin n → ℚ) : Fin n → ℚ :=
  A.transpose.mulVec (A.mulVec x - b)

/-- Normal-equation system masked to the passive set: rows at active indices
are identity rows, forcing the solution to vanish there, while rows at passive
indices are the corresponding rows of the Gram matrix. -/
def maskedGram (A : Matrix (Fin m) (Fin n) ℚ) (passive : Fin n → Bool) :
    Matrix (Fin n) (Fin n) ℚ :=
  fun i j => if passive i then (A.transpose * A) i j else (if i = j then 1 else 0)

/-- Right-hand side of the masked normal-equation system. -/
def maskedRhs (A : Matrix (Fin m) (Fin n) ℚ) (passive : Fin n → Bool) (b : Fin m → ℚ) :
    Fin n → ℚ :=
  fun i => if passive i then A.transpose.mulVec b i else 0

/-- Modelled from the spec: the externally supplied unconstrained
least-squares sub-solve over the passive-set columns of A against b (spec
section 4.1 step 4 and section 6, a consumed primitive whose implementation is
not among the provided sources).  Over exact rationals it solves the normal
equations restricted to the passive set, returning none when the passive Gram
system is singular. -/
def lsSolve (A : Matrix (Fin m) (Fin n) ℚ) (passive : Fin n → Bool) (b : Fin m → ℚ) :
    Option (Fin n → ℚ) :=
  let N := maskedGram A passive
  let c := maskedRhs A passive b
  let d := detExp n N
  if d = 0 then none else some (fun i => cramerExp n N c i / d)

/-- First index in the list minimising f, or none on the empty list.  Earlier
indices win ties, matching a left-to-right scan for the most violating dual. -/
def minBy (f : Fin n → ℚ) : List (Fin n) → Option (Fin n)
  | [] => none
  | i :: rest =>
      match minBy f rest with
      | none => some i
      | some j => if f i ≤ f j then some i else some j

/-- Outcome of one solve call: final partition mask, iterate, iteration count
and status. -/
structure SolveResult (n : Nat) where
  passive : Fin n → Bool
  x : Fin n → ℚ
  iterations : Nat
  info : ComputationInfo

/-- Modelled from the spec: the inner feasibility loop of section 4.1 step 6
(the NNLS solver implementation is not among the provided sources).  Starting
from a passive mask and the current feasible iterate, it repeatedly solves the
passive-set least-squares sub-problem; an all-non-negative candidate is
accepted, otherwise the binding passive index closest to crossing zero is
moved back to the active set, the iterate is blended to the feasibility
boundary, and the sub-solve is repeated on the reduced passive set.  Fuel
bounds the recursion; the fallback cases (fuel exhausted, which is unreachable
for fuel above the passive count, or a singular sub-solve, which the spec does
not detect, section 7) fall back to the all-active iterate x = 0, matching the
spec phrase "until the sub-solve is feasible or no passive indices remain". -/
def innerLoop (A : Matrix (Fin m) (Fin n) ℚ) (b : Fin m → ℚ) :
    Nat → (Fin n → Bool) → (Fin n → ℚ) → (Fin n → Bool) × (Fin n → ℚ)
  | 0, _, _ => (fun _ => false, fun _ => 0)
  | fuel + 1, passive, x =>
      match lsSolve A passive b with
      | none => (fun _ => false, fun _ => 0)
      | some z =>
          match minBy (fun i => x i / (x i - z i))
              ((List.finRange n).filter fun i => passive i && decide (z i < 0)) with
          | none => (passive, z)
          | some k =>
              let step := x k / (x k - z k)
              innerLoop A b fuel
                (fun i => if i = k then false else passive i)
                (fun i => if i = k then 0 else x i + step * (z i - x i))

/-- Modelled from the spec: the outer active-set loop of section 4.1 (the NNLS
solver implementation is not among the provided sources).  At the top of each
pass the optimality test on the active duals runs first (0-iteration success
is possible); then the iteration cap is checked, so an exhausted budget
reports NoConvergence with the configured cap as the iteration count; then the
most negative active dual enters the passive set, the inner feasibility loop
produces the next iterate, and the iteration counter increments once per
outer pass. -/
def outerLoop (A : Matrix (Fin m) (Fin n) ℚ) (b : Fin m → ℚ) (tol : ℚ) (maxIter : Nat) :
    Nat → (Fin n → Bool) → (Fin n → ℚ) → Nat → SolveResult n
  | 0, passive, x, iter => ⟨passive, x, iter, .NoConvergence⟩
  | fuel + 1, passive, x, iter =>
      if (∀ i, passive i = false → -tol ≤ dualVec A b x i) then
        ⟨passive, x, iter, .Success⟩
      else if maxIter ≤ iter then
        ⟨passive, x, iter, .NoConvergence⟩
      else
        match minBy (dualVec A b x) ((List.finRange n).filter fun i => !passive i) with
        | none => ⟨passive, x, iter, .NoConvergence⟩
        | some k =>
            let next := innerLoop A b (n + 1) (fun i => if i = k then true else passive i) x
            outerLoop A b tol maxIter fuel next.1 next.2 (iter + 1)

/-- Modelled from the spec: one solve call on a well-shaped problem (section
4.1): all indices start active with x = 0, and the outer loop runs with fuel
maxIter + 1, enough for the iteration-cap branch to fire before fuel runs
out. -/
def solveCore (A : Matrix (Fin m) (Fin n) ℚ) (b : Fin m → ℚ) (maxIter : Nat) (tol : ℚ) :
    SolveResult n :=
  outerLoop A b tol maxIter (maxIter + 1) (fun _ => false) (fun _ => 0) 0

/-- Modelled from the spec: the default numerical tolerance (a library default
at machine-epsilon scale, section 3); the exact value is irrelevant to the
claims beyond being non-negative. -/
def defaultTol : ℚ := 1 / 2 ^ 52

/-- Solver object: configuration plus the results reported after a solve call
(final x, status, iteration count, section 4.1). -/
structure NNLSSolver (m n : Nat) where
  A : Matrix (Fin m) (Fin n) ℚ
  maxIter : Nat
  tol : ℚ
  x : Fin n → ℚ
  passive : Fin n → Bool
  iterations : Nat
  info : ComputationInfo

/-- Modelled from the spec: construction from (A, optional max-iterations,
optional tolerance); the max-iteration bound defaults to twice the column
count, and construction fails with InvalidInput when A has fewer rows than
columns (section 4.1). -/
def NNLSSolver.construct (m n : Nat) (A : Matrix (Fin m) (Fin n) ℚ)
    (maxIterOpt : Option Nat) (tolOpt : Option ℚ) : NNLSSolver m n :=
  { A := A
    maxIter := maxIterOpt.getD (2 * n)
    tol := tolOpt.getD defaultTol
    x := fun _ => 0
    passive := fun _ => false
    iterations := 0
    info := if m < n then .InvalidInput else .Success }

/-- Modelled from the spec: setMaxIterations reconfigures the iteration cap. -/
def NNLSSolver.setMaxIterations (s : NNLSSolver m n) (k : Nat) : NNLSSolver m n :=
  { s with maxIter := k }

/-- Modelled from the spec: solve(b).  A malformed shape (rows below columns)
or a b whose length differs from the row count yields InvalidInput before any
iteration runs, leaving the iterate, partition and iteration count untouched;
otherwise the core active-set loop runs and its results are stored. -/
def NNLSSolver.solve (s : NNLSSolver m n) (b : List ℚ) : NNLSSolver m n :=
  if m < n then { s with info := .InvalidInput }
  else if h : b.length = m then
    let r := solveCore s.A (fun i => b.get (Fin.cast h.symm i)) s.maxIter s.tol
    { s with x := r.x, passive := r.passive, iterations := r.iterations, info := r.info }
  else { s with info := .InvalidInput }

/-- Invariant: the iterate vanishes on the active set. -/
def ZeroOnActive (passive : Fin n → Bool) (x : Fin n → ℚ) : Prop :=
  ∀ i, passive i = false → x i = 0

/-- Invariant: the dual vanishes on the passive set, i.e. the iterate solves
the restricted normal equations exactly. -/
def DualZeroOnPassive (A : Matrix (Fin m) (Fin n) ℚ) (b : Fin m → ℚ)
    (passive : Fin n → Bool) (x : Fin n → ℚ) : Prop :=
  ∀ i, passive i = true → dualVec A b x i = 0

/-- Invariant: the iterate is entrywise non-negative. -/
def NonNeg (x : Fin n → ℚ) : Prop := ∀ i, 0 ≤ x i

/-- Concrete instance for the exact-iteration-count claims: the identity
matrix on two variables, a full-column-rank matrix. -/
def stepA : Matrix (Fin 2) (Fin 2) ℚ := !![1, 0; 0, 1]

/-- Right-hand side stepA * (1, 1), the image of a strictly positive vector,
so both variables must enter the passive set with no backtracking. -/
def stepB : List ℚ := [1, 1]

/-- Concrete regression instance of the test suite: the 4 x 3 Vandermonde-like
matrix whose unconstrained least-squares solution is indefinite. -/
def regA : Matrix (Fin 4) (Fin 3) ℚ := !![1, 1, 1; 2, 4, 8; 3, 9, 27; 4, 16, 64]

/-- Right-hand side of the regression instance. -/
def regB : List ℚ := [13/100, 84/100, 291/100, 712/100]

/-- Right-hand side of the regression instance as a vector, for the
unconstrained least-squares side condition. -/
def regBv : Fin 4 → ℚ := ![13/100, 84/100, 291/100, 712/100]

/-- Tolerance used by the regression test (square root of double machine
epsilon is about 1.49e-8; any value of that scale gives the same run). -/
def regTol : ℚ := 1 / 100000000

/-- One-variable instance used as witness data: a single column aligned so
that activating it decreases the objective. -/
def witA : Matrix (Fin 1) (Fin 1) ℚ := !![1]

/-- One-variable witness instance whose column is anti-aligned with b, making
the zero vector optimal at the start. -/
def witNegA : Matrix (Fin 1) (Fin 1) ℚ := !![-1]

/-- Right-hand side for the one-variable witness instances. -/
def witB : Fin 1 → ℚ := ![1]

end EigenNNLS

namespace EigenHeu

/-- Two-argument base case of the variadic minimum of HeuMaths.hpp
(internal::imp_min): if a is at least b the second argument b is returned,
otherwise a. -/
def imp_min2 {α : Type} [LinearOrder α] (a b : α) : α := if a ≥ b then b else a

/-- Variadic recursion of internal::imp_min: imp_min(a, b, rest...) reduces to
imp_min(imp_min(a, b), rest...), the trailing pack modelled as a list. -/
def imp_min {α : Type} [LinearOrder α] : α → α → List α → α
  | a, b, [] => imp_min2 a b
  | a, b, c :: rest => imp_min (imp_min2 a b) c rest

/-- Two-argument base case of the variadic maximum of HeuMaths.hpp
(internal::imp_max): if a is at most b the second argument b is returned,
otherwise a. -/
def imp_max2 {α : Type} [LinearOrder α] (a b : α) : α := if a ≤ b then b else a

/-- Variadic recursion of internal::imp_max. -/
def imp_max {α : Type} [LinearOrder α] : α → α → List α → α
  | a, b, [] => imp_max2 a b
  | a, b, c :: rest => imp_max (imp_max2 a b) c rest

/-- Public Eigen::min of HeuMaths.hpp: forwards its arguments to
internal::imp_min.  The C++ template requires at least two arguments (a
single-argument call has no matching imp_min overload), so the model takes
the first two arguments plus the remaining pack. -/
def min {α : Type} [LinearOrder α] (a b : α) (rest : List α) : α := imp_min a b rest

/-- Public Eigen::max of HeuMaths.hpp: forwards to internal::imp_max. -/
def max {α : Type} [LinearOrder α] (a b : α) (rest : List α) : α := imp_max a b rest

end EigenHeu

namespace EigenNNLS

open Matrix

variable {m n : Nat}

/-- The executable determinant agrees with the Mathlib determinant. -/
theorem detExp_eq_det : ∀ (k : Nat) (M : Matrix (Fin k) (Fin k) ℚ), detExp k M = M.det
  | 0, _ => Matrix.det_fin_zero.symm
  | k + 1, M => by
      rw [Matrix.det_succ_column_zero, detExp]
      exact Finset.sum_congr rfl fun i _ => by rw [detExp_eq_det k]

/-- The executable Cramer vector agrees with the Mathlib one. -/
theorem cramerExp_eq_cramer (k : Nat) (M : Matrix (Fin k) (Fin k) ℚ) (c : Fin k → ℚ) :
    cramerExp k M c = Matrix.cramer M c := by
  funext i
  rw [cramerExp, Matrix.cramer_apply, detExp_eq_det]

/-- A successful sub-solve vanishes on the active set and has zero dual on the
passive set (it solves the restricted normal equations exactly). -/
theorem lsSolve_spec (A : Matrix (Fin m) (Fin n) ℚ) (passive : Fin n → Bool)
    (b : Fin m → ℚ) (z : Fin n → ℚ) (hz : lsSolve A passive b = some z) :
    (∀ i, passive i = false → z i = 0) ∧ (∀ i, passive i = true → dualVec A b z i = 0) := by
  rw [lsSolve] at hz
  set N := maskedGram A passive with hN
  set c := maskedRhs A passive b with hc
  by_cases hd : detExp n N = 0
  · simp [hd] at hz
  · simp only [if_neg hd] at hz
    have hdet : N.det ≠ 0 := by rw [← detExp_eq_det]; exact hd
    have hzfun : (fun i => cramerExp n N c i / detExp n N) = z := Option.some.inj hz
    have hzdef : z = (detExp n N)⁻¹ • Matrix.cramer N c := by
      funext i
      rw [← hzfun]
      simp [cramerExp_eq_cramer, div_eq_inv_mul, Pi.smul_apply, smul_eq_mul]
    have hsolve : N.mulVec z = c := by
      rw [hzdef, Matrix.mulVec_smul, Matrix.mulVec_cramer, detExp_eq_det, smul_smul,
        inv_mul_cancel₀ hdet, one_smul]
    constructor
    · intro i hi
      have hrow : N.mulVec z i = z i := by
        simp only [Matrix.mulVec, dotProduct, hN, maskedGram, hi, Bool.false_eq_true,
          if_false, ite_mul, one_mul, zero_mul]
        simp [Finset.sum_ite_eq Finset.univ i z]
      have hci : c i = 0 := by simp [hc, maskedRhs, hi]
      rw [← hrow, hsolve, hci]
    · intro i hi
      have hrow : N.mulVec z i = (A.transpose * A).mulVec z i := by
        simp only [Matrix.mulVec, dotProduct, hN, maskedGram, hi, if_true]
      have hci : c i = A.transpose.mulVec b i := by simp [hc, maskedRhs, hi]
      have hgram : (A.transpose * A).mulVec z i = A.transpose.mulVec b i := by
        rw [← hrow, hsolve, hci]
      rw [dualVec, Matrix.mulVec_sub, Pi.sub_apply, Matrix.mulVec_mulVec, hgram, sub_self]

/-- An empty-result minBy means the candidate list was empty. -/
theorem minBy_eq_none (f : Fin n → ℚ) (l : List (Fin n)) (h : minBy f l = none) : l = [] := by
  cases l with
  | nil => rfl
  | cons i rest =>
      rw [minBy] at h
      rcases hm : minBy f rest with _ | j <;> rw [hm] at h
      · simp at h
      · by_cases hf : f i ≤ f j <;> simp [hf] at h

/-- The inner feasibility loop always returns a partition and iterate
satisfying the three solver invariants: zero on the active set, zero passive
dual, and entrywise non-negativity. -/
theorem innerLoop_inv (A : Matrix (Fin m) (Fin n) ℚ) (b : Fin m → ℚ) :
    ∀ (fuel : Nat) (passive : Fin n → Bool) (x : Fin n → ℚ),
      ZeroOnActive (innerLoop A b fuel passive x).1 (innerLoop A b fuel passive x).2 ∧
      DualZeroOnPassive A b (innerLoop A b fuel passive x).1 (innerLoop A b fuel passive x).2 ∧
      NonNeg (innerLoop A b fuel passive x).2 := by
  intro fuel
  induction fuel with
  | zero =>
      intro passive x
      refine ⟨fun i _ => rfl, fun i h => by simp [innerLoop] at h, fun i => le_refl 0⟩
  | succ f ih =>
      intro passive x
      rw [innerLoop]
      split
      · exact ⟨fun i _ => rfl, fun i h => by simp at h, fun i => le_refl 0⟩
      · rename_i z hz
        split
        · rename_i hm
          have hspec := lsSolve_spec A passive b z hz
          refine ⟨hspec.1, hspec.2, fun i => ?_⟩
          by_cases hp : passive i = true
          · by_cases hneg : z i < 0
            · exfalso
              have hfil := minBy_eq_none _ _ hm
              have hmem : i ∈ (List.finRange n).filter
                  (fun j => passive j && decide (z j < 0)) := by
                apply List.mem_filter.mpr
                exact ⟨List.mem_finRange i, by simp [hp, hneg]⟩
              rw [hfil] at hmem
              simp at hmem
            · exact le_of_not_lt hneg
          · have := hspec.1 i (Bool.not_eq_true _ ▸ hp)
            simp [this]
        · exact ih _ _

/-- The outer loop preserves the three solver invariants, and a Success
status implies the active duals passed the optimality test. -/
theorem outerLoop_inv (A : Matrix (Fin m) (Fin n) ℚ) (b : Fin m → ℚ) (tol : ℚ)
    (maxIter : Nat) :
    ∀ (fuel : Nat) (passive : Fin n → Bool) (x : Fin n → ℚ) (iter : Nat),
      ZeroOnActive passive x → DualZeroOnPassive A b passive x → NonNeg x →
      (ZeroOnActive (outerLoop A b tol maxIter fuel passive x iter).passive
          (outerLoop A b tol maxIter fuel passive x iter).x ∧
        DualZeroOnPassive A b (outerLoop A b tol maxIter fuel passive x iter).passive
          (outerLoop A b tol maxIter fuel passive x iter).x ∧
        NonNeg (outerLoop A b tol maxIter fuel passive x iter).x) ∧
      ((outerLoop A b tol maxIter fuel passive x iter).info = ComputationInfo.Success →
        ∀ i, (outerLoop A b tol maxIter fuel passive x iter).passive i = false →
          -tol ≤ dualVec A b (outerLoop A b tol maxIter fuel passive x iter).x i) := by
  intro fuel
  induction fuel with
  | zero =>
      intro passive x iter h1 h2 h3
      exact ⟨⟨h1, h2, h3⟩, fun hs => by simp [outerLoop] at hs⟩
  | succ f ih =>
      intro passive x iter h1 h2 h3
      rw [outerLoop]
      split
      · rename_i hopt
        exact ⟨⟨h1, h2, h3⟩, fun _ => hopt⟩
      · split
        · exact ⟨⟨h1, h2, h3⟩, fun hs => by simp at hs⟩
        · split
          · exact ⟨⟨h1, h2, h3⟩, fun hs => by simp at hs⟩
          · rename_i k hk
            have hin := innerLoop_inv A b (n + 1)
              (fun i => if i = k then true else passive i) x
            exact ih _ _ _ hin.1 hin.2.1 hin.2.2

/-- When the optimality test on the active duals passes at the top of a pass,
the outer loop stops at once with Success, leaving iterate and counter as
they are. -/
theorem outerLoop_top_success (A : Matrix (Fin m) (Fin n) ℚ) (b : Fin m → ℚ) (tol : ℚ)
    (maxIter f : Nat) (passive : Fin n → Bool) (x : Fin n → ℚ) (iter : Nat)
    (h : ∀ i, passive i = false → -tol ≤ dualVec A b x i) :
    outerLoop A b tol maxIter (f + 1) passive x iter = ⟨passive, x, iter, .Success⟩ := by
  rw [outerLoop, if_pos h]

/-- The dual of the zero iterate against a zero right-hand side vanishes. -/
theorem dualVec_zero_zero (A : Matrix (Fin m) (Fin n) ℚ) :
    dualVec A (fun _ => 0) (fun _ => 0) = fun _ => 0 := by
  have h0 : (fun _ : Fin n => (0 : ℚ)) = (0 : Fin n → ℚ) := rfl
  have hb : (fun _ : Fin m => (0 : ℚ)) = (0 : Fin m → ℚ) := rfl
  rw [dualVec, h0, hb, Matrix.mulVec_zero, sub_zero, Matrix.mulVec_zero]

/-- A zero right-hand side is solved by the zero iterate in zero iterations. -/
theorem solveCore_zero_rhs (A : Matrix (Fin m) (Fin n) ℚ) (maxIter : Nat) (tol : ℚ)
    (htol : 0 ≤ tol) :
    solveCore A (fun _ => 0) maxIter tol =
      ⟨fun _ => false, fun _ => 0, 0, ComputationInfo.Success⟩ := by
  rw [solveCore]
  apply outerLoop_top_success
  intro i _
  rw [dualVec_zero_zero]
  simpa using neg_nonpos.mpr htol

/-- C1: for every solve call that terminates with status Success, the
returned solution satisfies the active-set optimality conditions within the
configured non-negative tolerance: the dual is at least -tolerance at every
index where the solution vanishes, and the complementary-slackness product is
at most tolerance in absolute value at every index. -/
theorem nnls_success_optimality (A : Matrix (Fin m) (Fin n) ℚ) (b : Fin m → ℚ)
    (maxIter : Nat) (tol : ℚ) (htol : 0 ≤ tol)
    (hs : (solveCore A b maxIter tol).info = ComputationInfo.Success) :
    (∀ i, (solveCore A b maxIter tol).x i = 0 →
        -tol ≤ dualVec A b (solveCore A b maxIter tol).x i) ∧
    (∀ i, |(solveCore A b maxIter tol).x i *
        dualVec A b (solveCore A b maxIter tol).x i| ≤ tol) := by
  have h := outerLoop_inv A b tol maxIter (maxIter + 1) (fun _ => false) (fun _ => 0) 0
    (fun i _ => rfl) (fun i hi => by simp at hi) (fun i => le_refl 0)
  rw [solveCore] at hs ⊢
  have hdualpass := h.1.2.1
  have hzeroact := h.1.1
  have hsucc := h.2 hs
  constructor
  · intro i _
    by_cases hp : (outerLoop A b tol maxIter (maxIter + 1)
        (fun _ => false) (fun _ => 0) 0).passive i = true
    · rw [hdualpass i hp]
      simpa using neg_nonpos.mpr htol
    · exact hsucc i (Bool.not_eq_true _ ▸ hp)
  · intro i
    by_cases hp : (outerLoop A b tol maxIter (maxIter + 1)
        (fun _ => false) (fun _ => 0) 0).passive i = true
    · rw [hdualpass i hp, mul_zero, abs_zero]
      exact htol
    · rw [hzeroact i (Bool.not_eq_true _ ▸ hp), zero_mul, abs_zero]
      exact htol

/-- C2: every solve call returns an iterate that is exactly entrywise
non-negative, with the entries at active indices exactly zero, whatever the
final status. -/
theorem nnls_iterate_nonneg_active_zero (A : Matrix (Fin m) (Fin n) ℚ) (b : Fin m → ℚ)
    (maxIter : Nat) (tol : ℚ) :
    (∀ i, 0 ≤ (solveCore A b maxIter tol).x i) ∧
    (∀ i, (solveCore A b maxIter tol).passive i = false →
        (solveCore A b maxIter tol).x i = 0) := by
  have h := outerLoop_inv A b tol maxIter (maxIter + 1) (fun _ => false) (fun _ => 0) 0
    (fun i _ => rfl) (fun i hi => by simp at hi) (fun i => le_refl 0)
  rw [solveCore]
  exact ⟨h.1.2.2, h.1.1⟩

/-- C5: a problem with fewer rows than columns is rejected at construction
with InvalidInput, and a solve call with a right-hand side whose length is not
the row count reports InvalidInput while leaving the whole solver state
(iterate, partition, iteration count, configuration) unchanged. -/
theorem nnls_invalid_input_checks (A : Matrix (Fin m) (Fin n) ℚ)
    (maxIterOpt : Option Nat) (tolOpt : Option ℚ) (s : NNLSSolver m n) (b : List ℚ) :
    (m < n → (NNLSSolver.construct m n A maxIterOpt tolOpt).info =
        ComputationInfo.InvalidInput) ∧
    (b.length ≠ m →
      (s.solve b).info = ComputationInfo.InvalidInput ∧
      (s.solve b).x = s.x ∧ (s.solve b).passive = s.passive ∧
      (s.solve b).iterations = s.iterations ∧ (s.solve b).maxIter = s.maxIter) := by
  constructor
  · intro h
    simp [NNLSSolver.construct, h]
  · intro h
    rw [NNLSSolver.solve]
    by_cases hmn : m < n
    · rw [if_pos hmn]
      exact ⟨rfl, rfl, rfl, rfl, rfl⟩
    · rw [if_neg hmn, dif_neg h]
      exact ⟨rfl, rfl, rfl, rfl, rfl⟩

/-- C6: a solver constructed from A alone, with no explicit max-iteration
bound, is configured with a max-iteration count of exactly twice the column
count. -/
theorem nnls_default_max_iterations (A : Matrix (Fin m) (Fin n) ℚ) :
    (NNLSSolver.construct m n A none none).maxIter = 2 * n := rfl

/-- C7: for a problem with at least as many rows as columns and a
non-negative configured tolerance, solving against the zero right-hand side
returns the exact zero solution with status Success in at most one
iteration. -/
theorem nnls_zero_rhs (A : Matrix (Fin m) (Fin n) ℚ) (maxIterOpt : Option Nat)
    (tol : ℚ) (htol : 0 ≤ tol) (hmn : n ≤ m) :
    ((NNLSSolver.construct m n A maxIterOpt (some tol)).solve
        (List.replicate m 0)).info = ComputationInfo.Success ∧
    (∀ i, ((NNLSSolver.construct m n A maxIterOpt (some tol)).solve
        (List.replicate m 0)).x i = 0) ∧
    ((NNLSSolver.construct m n A maxIterOpt (some tol)).solve
        (List.replicate m 0)).iterations ≤ 1 := by
  have hlen : (List.replicate m (0 : ℚ)).length = m := List.length_replicate m 0
  rw [NNLSSolver.solve, if_neg (Nat.not_lt.mpr hmn), dif_pos hlen]
  have hb : (fun i : Fin m => (List.replicate m (0 : ℚ)).get (Fin.cast hlen.symm i)) =
      (fun _ => (0 : ℚ)) := by
    funext i
    simp
  simp only [hb]
  rw [solveCore_zero_rhs _ _ _
    (show (0 : ℚ) ≤ (NNLSSolver.construct m n A maxIterOpt (some tol)).tol from htol)]
  exact ⟨rfl, fun i => rfl, Nat.zero_le 1⟩

/-- C8: when the zero iterate already passes the optimality test, i.e. every
dual value at x = 0 is at least -tolerance, the solve reports Success with an
iteration count of exactly zero and returns the zero vector. -/
theorem nnls_zero_iterations_when_initial_optimal (A : Matrix (Fin m) (Fin n) ℚ)
    (b : Fin m → ℚ) (maxIter : Nat) (tol : ℚ)
    (h : ∀ i, -tol ≤ dualVec A b (fun _ => 0) i) :
    (solveCore A b maxIter tol).info = ComputationInfo.Success ∧
    (solveCore A b maxIter tol).iterations = 0 ∧
    (∀ i, (solveCore A b maxIter tol).x i = 0) := by
  rw [solveCore,
    outerLoop_top_success A b tol maxIter maxIter (fun _ => false) (fun _ => 0) 0
      (fun i _ => h i)]
  exact ⟨rfl, rfl, fun i => rfl⟩

set_option maxRecDepth 40000 in
unseal Rat.add Rat.mul Rat.sub Rat.inv in
/-- C3: on the concrete full-column-rank instance stepA with right-hand side
stepA * (1, 1) (the image of a strictly positive vector, so both variables
must become passive with no backtracking), the solve reports Success after
exactly n = 2 iterations; with the max-iteration bound lowered to n - 1 = 1,
it reports NoConvergence, the iteration count equals the configured cap 1,
and the best iterate found so far, (1, 0), is still returned. -/
theorem nnls_exact_iteration_count_instance :
    detExp 2 (stepA.transpose * stepA) ≠ 0 ∧
    (stepA.mulVec ![1, 1] 0 = 1 ∧ stepA.mulVec ![1, 1] 1 = 1) ∧
    ((NNLSSolver.construct 2 2 stepA none none).solve stepB).info =
      ComputationInfo.Success ∧
    ((NNLSSolver.construct 2 2 stepA none none).solve stepB).iterations = 2 ∧
    (((NNLSSolver.construct 2 2 stepA none none).setMaxIterations 1).solve stepB).info =
      ComputationInfo.NoConvergence ∧
    (((NNLSSolver.construct 2 2 stepA none none).setMaxIterations 1).solve
      stepB).iterations = 1 ∧
    (((NNLSSolver.construct 2 2 stepA none none).setMaxIterations 1).solve stepB).x 0 = 1 ∧
    (((NNLSSolver.construct 2 2 stepA none none).setMaxIterations 1).solve stepB).x 1 = 0 := by
  decide

set_option maxRecDepth 40000 in
unseal Rat.add Rat.mul Rat.sub Rat.inv in
/-- C9: on the concrete regression instance regA, regB, the unconstrained
least-squares solution exists and has a negative second component, and the
solve returns Success with the negative components suppressed to exactly
zero and the last component equal to 5411/48900, which is within 1e-6 of the
expected 0.1106544. -/
theorem nnls_regression_negative_suppressed :
    (lsSolve regA (fun _ => true) regBv).isSome = true ∧
    ((lsSolve regA (fun _ => true) regBv).getD (fun _ => 0)) 1 < 0 ∧
    ((NNLSSolver.construct 4 3 regA (some 15) (some regTol)).solve regB).info =
      ComputationInfo.Success ∧
    ((NNLSSolver.construct 4 3 regA (some 15) (some regTol)).solve regB).x 0 = 0 ∧
    ((NNLSSolver.construct 4 3 regA (some 15) (some regTol)).solve regB).x 1 = 0 ∧
    ((NNLSSolver.construct 4 3 regA (some 15) (some regTol)).solve regB).x 2 =
      5411 / 48900 ∧
    ((NNLSSolver.construct 4 3 regA (some 15) (some regTol)).solve regB).x 2 -
      1106544 / 10000000 ≤ 1 / 1000000 ∧
    -(1 / 1000000) ≤
      ((NNLSSolver.construct 4 3 regA (some 15) (some regTol)).solve regB).x 2 -
        1106544 / 10000000 := by
  decide

set_option maxRecDepth 8000 in
unseal Rat.add Rat.mul Rat.sub Rat.inv in
/-- Witness for C1 at the one-variable instance witA, witB with zero
tolerance: the hypotheses (non-negative tolerance, Success status) hold there
and the optimality conclusions follow from the claim theorem. -/
theorem nnls_success_optimality_witness :
    (0 : ℚ) ≤ 0 ∧
    (solveCore witA witB 2 0).info = ComputationInfo.Success ∧
    ((∀ i, (solveCore witA witB 2 0).x i = 0 →
        -(0 : ℚ) ≤ dualVec witA witB (solveCore witA witB 2 0).x i) ∧
      (∀ i, |(solveCore witA witB 2 0).x i *
          dualVec witA witB (solveCore witA witB 2 0).x i| ≤ (0 : ℚ))) :=
  ⟨le_refl 0, by decide, nnls_success_optimality witA witB 2 0 (le_refl 0) (by decide)⟩

/-- Witness for C2 at the one-variable instance witA, witB. -/
theorem nnls_iterate_nonneg_active_zero_witness :
    (∀ i, 0 ≤ (solveCore witA witB 2 0).x i) ∧
    (∀ i, (solveCore witA witB 2 0).passive i = false →
        (solveCore witA witB 2 0).x i = 0) :=
  nnls_iterate_nonneg_active_zero witA witB 2 0

/-- Witness for C5: a 1 x 2 problem is rejected at construction, and a solve
against a length-3 right-hand side on a 1-row problem is rejected with the
state unchanged. -/
theorem nnls_invalid_input_checks_witness :
    (NNLSSolver.construct 1 2 !![(1 : ℚ), 1] none none).info =
      ComputationInfo.InvalidInput ∧
    (((NNLSSolver.construct 1 2 !![(1 : ℚ), 1] none none).solve [1, 2, 3]).info =
        ComputationInfo.InvalidInput ∧
      ((NNLSSolver.construct 1 2 !![(1 : ℚ), 1] none none).solve [1, 2, 3]).x =
        (NNLSSolver.construct 1 2 !![(1 : ℚ), 1] none none).x ∧
      ((NNLSSolver.construct 1 2 !![(1 : ℚ), 1] none none).solve [1, 2, 3]).passive =
        (NNLSSolver.construct 1 2 !![(1 : ℚ), 1] none none).passive ∧
      ((NNLSSolver.construct 1 2 !![(1 : ℚ), 1] none none).solve [1, 2, 3]).iterations =
        (NNLSSolver.construct 1 2 !![(1 : ℚ), 1] none none).iterations ∧
      ((NNLSSolver.construct 1 2 !![(1 : ℚ), 1] none none).solve [1, 2, 3]).maxIter =
        (NNLSSolver.construct 1 2 !![(1 : ℚ), 1] none none).maxIter) :=
  ⟨(nnls_invalid_input_checks !![(1 : ℚ), 1] none none
      (NNLSSolver.construct 1 2 !![(1 : ℚ), 1] none none) [1, 2, 3]).1 (by decide),
    (nnls_invalid_input_checks !![(1 : ℚ), 1] none none
      (NNLSSolver.construct 1 2 !![(1 : ℚ), 1] none none) [1, 2, 3]).2 (by decide)⟩

/-- Witness for C7 at the one-variable instance witA with zero tolerance. -/
theorem nnls_zero_rhs_witness :
    (0 : ℚ) ≤ 0 ∧ 1 ≤ 1 ∧
    (((NNLSSolver.construct 1 1 witA none (some 0)).solve
        (List.replicate 1 0)).info = ComputationInfo.Success ∧
      (∀ i, ((NNLSSolver.construct 1 1 witA none (some 0)).solve
          (List.replicate 1 0)).x i = 0) ∧
      ((NNLSSolver.construct 1 1 witA none (some 0)).solve
        (List.replicate 1 0)).iterations ≤ 1) :=
  ⟨le_refl 0, le_refl 1, nnls_zero_rhs witA none 0 (le_refl 0) (le_refl 1)⟩

set_option maxRecDepth 8000 in
unseal Rat.add Rat.mul Rat.sub Rat.inv in
/-- Witness for C8 at the anti-aligned one-variable instance witNegA, witB
with zero tolerance: every dual value at the zero iterate is non-negative, so
the solve succeeds in zero iterations. -/
theorem nnls_zero_iterations_witness :
    (∀ i, -(0 : ℚ) ≤ dualVec witNegA witB (fun _ => 0) i) ∧
    ((solveCore witNegA witB 2 0).info = ComputationInfo.Success ∧
      (solveCore witNegA witB 2 0).iterations = 0 ∧
      (∀ i, (solveCore witNegA witB 2 0).x i = 0)) :=
  ⟨by decide, nnls_zero_iterations_when_initial_optimal witNegA witB 2 0 (by decide)⟩

end EigenNNLS

namespace EigenHeu

/-- The two-argument minimum is at most its first argument. -/
theorem imp_min2_le_left {α : Type} [LinearOrder α] (a b : α) : imp_min2 a b ≤ a := by
  rw [imp_min2]
  split
  · assumption
  · exact le_refl a

/-- The two-argument minimum is at most its second argument. -/
theorem imp_min2_le_right {α : Type} [LinearOrder α] (a b : α) : imp_min2 a b ≤ b := by
  rw [imp_min2]
  split
  · exact le_refl b
  · exact le_of_lt (lt_of_not_ge (by assumption))

/-- The two-argument minimum is one of its arguments. -/
theorem imp_min2_eq_or {α : Type} [LinearOrder α] (a b : α) :
    imp_min2 a b = a ∨ imp_min2 a b = b := by
  rw [imp_min2]
  split
  · exact Or.inr rfl
  · exact Or.inl rfl

/-- The variadic minimum fold returns one of its arguments and bounds all of
them from below. -/
theorem imp_min_spec {α : Type} [LinearOrder α] :
    ∀ (rest : List α) (a b : α),
      (imp_min a b rest = a ∨ imp_min a b rest = b ∨ imp_min a b rest ∈ rest) ∧
      imp_min a b rest ≤ a ∧ imp_min a b rest ≤ b ∧ ∀ x ∈ rest, imp_min a b rest ≤ x
  | [], a, b => by
      rw [imp_min]
      exact ⟨(imp_min2_eq_or a b).imp id Or.inl, imp_min2_le_left a b,
        imp_min2_le_right a b, by simp⟩
  | c :: t, a, b => by
      rw [imp_min]
      have ih := imp_min_spec t (imp_min2 a b) c
      have hle2 : imp_min (imp_min2 a b) c t ≤ imp_min2 a b := ih.2.1
      refine ⟨?_, ?_, ?_, ?_⟩
      · rcases ih.1 with h | h | h
        · rcases imp_min2_eq_or a b with h2 | h2
          · exact Or.inl (h.trans h2)
          · exact Or.inr (Or.inl (h.trans h2))
        · exact Or.inr (Or.inr (by rw [h]; exact List.mem_cons_self c t))
        · exact Or.inr (Or.inr (List.mem_cons_of_mem c h))
      · exact hle2.trans (imp_min2_le_left a b)
      · exact hle2.trans (imp_min2_le_right a b)
      · intro x hx
        rcases List.mem_cons.mp hx with rfl | hx2
        · exact ih.2.2.1
        · exact ih.2.2.2 x hx2

/-- The two-argument maximum is at least its first argument. -/
theorem imp_max2_ge_left {α : Type} [LinearOrder α] (a b : α) : a ≤ imp_max2 a b := by
  rw [imp_max2]
  split
  · assumption
  · exact le_refl a

/-- The two-argument maximum is at least its second argument. -/
theorem imp_max2_ge_right {α : Type} [LinearOrder α] (a b : α) : b ≤ imp_max2 a b := by
  rw [imp_max2]
  split
  · exact le_refl b
  · exact le_of_lt (lt_of_not_ge (by assumption))

/-- The two-argument maximum is one of its arguments. -/
theorem imp_max2_eq_or {α : Type} [LinearOrder α] (a b : α) :
    imp_max2 a b = a ∨ imp_max2 a b = b := by
  rw [imp_max2]
  split
  · exact Or.inr rfl
  · exact Or.inl rfl

/-- The variadic maximum fold returns one of its arguments and bounds all of
them from above. -/
theorem imp_max_spec {α : Type} [LinearOrder α] :
    ∀ (rest : List α) (a b : α),
      (imp_max a b rest = a ∨ imp_max a b rest = b ∨ imp_max a b rest ∈ rest) ∧
      a ≤ imp_max a b rest ∧ b ≤ imp_max a b rest ∧ ∀ x ∈ rest, x ≤ imp_max a b rest
  | [], a, b => by
      rw [imp_max]
      exact ⟨(imp_max2_eq_or a b).imp id Or.inl, imp_max2_ge_left a b,
        imp_max2_ge_right a b, by simp⟩
  | c :: t, a, b => by
      rw [imp_max]
      have ih := imp_max_spec t (imp_max2 a b) c
      have hge2 : imp_max2 a b ≤ imp_max (imp_max2 a b) c t := ih.2.1
      refine ⟨?_, ?_, ?_, ?_⟩
      · rcases ih.1 with h | h | h
        · rcases imp_max2_eq_or a b with h2 | h2
          · exact Or.inl (h.trans h2)
          · exact Or.inr (Or.inl (h.trans h2))
        · exact Or.inr (Or.inr (by rw [h]; exact List.mem_cons_self c t))
        · exact Or.inr (Or.inr (List.mem_cons_of_mem c h))
      · exact (imp_max2_ge_left a b).trans hge2
      · exact (imp_max2_ge_right a b).trans hge2
      · intro x hx
        rcases List.mem_cons.mp hx with rfl | hx2
        · exact ih.2.2.1
        · exact ih.2.2.2 x hx2

/-- C10: for every argument list on which the variadic Eigen min and max are
defined (at least two arguments, since a single-argument call has no matching
overload), min returns a value that is less than or equal to every argument
and equal to one of the arguments, with a two-way tie a greater-or-equal b
returning the second argument b; dually, max returns a value greater than or
equal to every argument and equal to one of them. -/
theorem heu_min_max_correct {α : Type} [LinearOrder α] (a b : α) (rest : List α) :
    (EigenHeu.min a b rest ∈ a :: b :: rest ∧
      ∀ x ∈ a :: b :: rest, EigenHeu.min a b rest ≤ x) ∧
    (b ≤ a → EigenHeu.min a b [] = b) ∧
    (EigenHeu.max a b rest ∈ a :: b :: rest ∧
      ∀ x ∈ a :: b :: rest, x ≤ EigenHeu.max a b rest) := by
  have hmin := imp_min_spec rest a b
  have hmax := imp_max_spec rest a b
  refine ⟨⟨?_, ?_⟩, ?_, ?_, ?_⟩
  · rcases hmin.1 with h | h | h <;> simp [EigenHeu.min, h]
  · intro x hx
    rcases List.mem_cons.mp hx with rfl | hx2
    · exact hmin.2.1
    · rcases List.mem_cons.mp hx2 with rfl | hx3
      · exact hmin.2.2.1
      · exact hmin.2.2.2 x hx3
  · intro h
    simp only [EigenHeu.min, imp_min, imp_min2]
    exact if_pos h
  · rcases hmax.1 with h | h | h <;> simp [EigenHeu.max, h]
  · intro x hx
    rcases List.mem_cons.mp hx with rfl | hx2
    · exact hmax.2.1
    · rcases List.mem_cons.mp hx2 with rfl | hx3
      · exact hmax.2.2.1
      · exact hmax.2.2.2 x hx3

/-- Witness for C10 at the integer arguments (2, 1, 3), including the
two-way-tie case min(2, 1) = 1 returning the second argument. -/
theorem heu_min_max_witness :
    ((EigenHeu.min (2 : ℤ) 1 [3] ∈ [2, 1, 3] ∧
        ∀ x ∈ ([2, 1, 3] : List ℤ), EigenHeu.min (2 : ℤ) 1 [3] ≤ x) ∧
      (EigenHeu.max (2 : ℤ) 1 [3] ∈ [2, 1, 3] ∧
        ∀ x ∈ ([2, 1, 3] : List ℤ), x ≤ EigenHeu.max (2 : ℤ) 1 [3])) ∧
    EigenHeu.min (2 : ℤ) 1 [] = 1 :=
  ⟨⟨(heu_min_max_correct (2 : ℤ) 1 [3]).1, (heu_min_max_correct (2 : ℤ) 1 [3]).2.2⟩,
    (heu_min_max_correct (2 : ℤ) 1 []).2.1 (by norm_num)⟩

end EigenHeu
